import Mathlib

/-!
Verification of the algolite filter compiler and query orchestrator.

Shallow embedding of the algolite source:

* `src/parseAlgoliaSQL.js` — the filter expression compiler
  (`buildSearchExpression`) lowering a filter AST into the index
  capability's boolean combinator algebra.
* `index.js` — the query orchestrator for `POST /1/indexes/:indexName/query`
  (text clause, filter clause, facet-filter normalisation, search, hit
  post-processing, sort, pagination) and the error-catching middleware
  `wrapAsyncMiddleware`.

The repository's grammar/parser module (`algoliaDSLParser`) is not part of
the available sources; it is modelled from the specification (§4.1 and §6 of
the spec): tokens `AND`, `OR`, `NOT`, `(`, `)`, `key:value` leaves; `AND`
binds tighter than `OR`, both left-associative; `NOT` is a prefix operator;
whitespace-insensitive.  Definitions modelled that way carry a doc comment
starting with `Modelled from the spec:`.

JavaScript machine values are embedded as `JsVal` (integers stand for the
numbers the claims exercise; floating point corners are not modelled).
JavaScript objects are embedded as association lists of fields.
-/

namespace Algolite

/-- Decidable equality of `Except` results, for evaluating the embedded
functions on concrete inputs. -/
instance {ε α : Type} [DecidableEq ε] [DecidableEq α] : DecidableEq (Except ε α) := fun x y =>
  match x, y with
  | .ok a, .ok b =>
    if h : a = b then .isTrue (by rw [h]) else .isFalse (by intro hc; cases hc; exact h rfl)
  | .error a, .error b =>
    if h : a = b then .isTrue (by rw [h]) else .isFalse (by intro hc; cases hc; exact h rfl)
  | .ok _, .error _ => .isFalse (by intro hc; cases hc)
  | .error _, .ok _ => .isFalse (by intro hc; cases hc)

/-- Embedded JavaScript primitive values as they occur in records:
numbers (modelled as integers), strings, booleans, and `undefined`. -/
inductive JsVal where
  | num (n : Int)
  | str (s : String)
  | bool (b : Bool)
  | undefined
deriving DecidableEq

/-- A JavaScript object (a search record): an association list of fields. -/
abbrev JsRec := List (String × JsVal)

/-- Field lookup on a record (`undefined`-free raw lookup). -/
def recFind : JsRec → String → Option JsVal
  | [], _ => none
  | (k', v) :: rest, k => if k' = k then some v else recFind rest k

/-- JavaScript property access `obj[k]`: a missing field reads as `undefined`. -/
def recGet (r : JsRec) (k : String) : JsVal :=
  (recFind r k).getD .undefined

/-- JavaScript property assignment `obj[k] = v`: overwrite the first
occurrence in place, or append the field when it is absent. -/
def recSet : JsRec → String → JsVal → JsRec
  | [], k, v => [(k, v)]
  | (k', v') :: rest, k, v =>
    if k' = k then (k, v) :: rest else (k', v') :: recSet rest k v

/-- JavaScript `delete obj[k]`: remove the field. -/
def recDel : JsRec → String → JsRec
  | [], _ => []
  | (k', v) :: rest, k =>
    if k' = k then recDel rest k else (k', v) :: recDel rest k

/-- Boolean query expression in the index capability's combinator algebra,
recorded as a free algebra: leaf match/term strings, and the `AND`, `OR`,
`NOT` combinators provided by the `db` object (`index.js` passes plain
strings and combinator results interchangeably to `db.SEARCH`). -/
inductive SearchExpr where
  | leaf (s : String)
  | AND (l r : SearchExpr)
  | OR (l r : SearchExpr)
  | NOT (univ : String) (e : SearchExpr)
deriving DecidableEq

/-- Filter AST node, as destructured by `buildSearchExpression`
(`const { token, key, value, left, right } = rule`): `MATCH` carries a key
and the literal's rendered value; `AND`/`OR` carry `left`/`right`; `NOT`
carries its operand in `value`; `UNKNOWN` stands for any node whose `token`
is none of the four recognised tags. -/
inductive Rule where
  | MATCH (key value : String)
  | AND (left right : Rule)
  | OR (left right : Rule)
  | NOT (value : Rule)
  | UNKNOWN (token : String)
deriving DecidableEq

/-- `rule.token === 'MATCH'` test used by the `NOT` branch of the compiler. -/
def Rule.isMatch : Rule → Bool
  | .MATCH _ _ => true
  | _ => false

/-- Errors thrown by the compiler (`throw new Error(msg)` in
`src/parseAlgoliaSQL.js`); the spec names this kind `UnsupportedFilterError`. -/
inductive CompileErr where
  | unsupportedFilter (msg : String)
deriving DecidableEq

/-- The filter expression compiler, `buildSearchExpression` of
`src/parseAlgoliaSQL.js` lines 3–28: `MATCH` becomes the leaf string
`key:value`; `OR`/`AND` recurse and apply the algebra's combinator;
`NOT` demands a `MATCH` operand and applies `NOT('*', ...)`;
anything else throws `UNKNOWN TOKEN`. -/
def buildSearchExpression : Rule → Except CompileErr SearchExpr
  | .MATCH key value => .ok (.leaf (key ++ ":" ++ value))
  | .OR left right => do
    let l ← buildSearchExpression left
    let r ← buildSearchExpression right
    pure (.OR l r)
  | .AND left right => do
    let l ← buildSearchExpression left
    let r ← buildSearchExpression right
    pure (.AND l r)
  | .NOT (.MATCH key value) => .ok (.NOT "*" (.leaf (key ++ ":" ++ value)))
  | .NOT _ => .error (.unsupportedFilter "NOT only supports MATCH")
  | .UNKNOWN _ => .error (.unsupportedFilter "UNKNOWN TOKEN")

/-- ASTs on which the compiler succeeds: no `UNKNOWN` node, and every `NOT`
operand is a `MATCH` node. -/
def wellFormed : Rule → Bool
  | .MATCH _ _ => true
  | .AND l r => wellFormed l && wellFormed r
  | .OR l r => wellFormed l && wellFormed r
  | .NOT v => v.isMatch
  | .UNKNOWN _ => false

/-- Modelled from the spec: the token alphabet of the filter grammar
(`algoliaDSLParser` is not among the available sources) — parentheses, the
keywords `AND`, `OR`, `NOT`, and `key:value` equality leaves. -/
inductive Tok where
  | LP
  | RP
  | TAND
  | TOR
  | TNOT
  | TM (key value : String)
deriving DecidableEq

/-- Modelled from the spec: parse failures (the spec's `SyntaxError`),
carrying the offending word or token. -/
inductive PErr where
  | badWord (w : String)
  | unexpectedEnd
  | unexpectedTok (t : Tok)
deriving DecidableEq

/-- Split a word at its first colon into key and value. -/
def splitColon : List Char → Option (List Char × List Char)
  | [] => none
  | c :: cs =>
    if c = ':' then some ([], cs)
    else
      match splitColon cs with
      | none => none
      | some (k, v) => some (c :: k, v)

/-- Modelled from the spec: classify one whitespace-delimited word — the
keywords `AND`/`OR`/`NOT`, else a `key:value` equality leaf with nonempty
identifier and literal; any other word is a syntax error. -/
def classifyWord (w : List Char) : Except PErr Tok :=
  if w = "AND".data then .ok .TAND
  else if w = "OR".data then .ok .TOR
  else if w = "NOT".data then .ok .TNOT
  else
    match splitColon w with
    | some (k, v) =>
      if k.isEmpty || v.isEmpty then .error (.badWord ⟨w⟩) else .ok (.TM ⟨k⟩ ⟨v⟩)
    | none => .error (.badWord ⟨w⟩)

/-- Emit the token of the word accumulated so far (if any) in front of the
already-produced token list. -/
def flushTok (acc : List Char) (ts : List Tok) : Except PErr (List Tok) :=
  match acc with
  | [] => .ok ts
  | _ => do pure ((← classifyWord acc.reverse) :: ts)

/-- Modelled from the spec: the lexer loop — spaces separate words,
parentheses are single-character tokens attached to adjacent words, every
other character extends the current word (`acc` holds it reversed). -/
def tokAux : List Char → List Char → Except PErr (List Tok)
  | acc, [] => flushTok acc []
  | acc, c :: cs =>
    if c = ' ' then do flushTok acc (← tokAux [] cs)
    else if c = '(' then do flushTok acc (.LP :: (← tokAux [] cs))
    else if c = ')' then do flushTok acc (.RP :: (← tokAux [] cs))
    else tokAux (c :: acc) cs

/-- Modelled from the spec: tokenize a filter string. -/
def tokenize (s : String) : Except PErr (List Tok) := tokAux [] s.data

mutual

/-- Modelled from the spec: atom := `key:value` | `(` expression `)`.
Every parser returns the remaining tokens together with a strict-consumption
bound used for termination. -/
def parseAtom : (toks : List Tok) → Except PErr (Rule × { r : List Tok // r.length < toks.length })
  | [] => .error .unexpectedEnd
  | .TM k v :: rest => .ok (.MATCH k v, ⟨rest, by simp⟩)
  | .LP :: rest =>
    match parseOr rest with
    | .error e => .error e
    | .ok (r, ⟨.RP :: rest3, h⟩) =>
      .ok (r, ⟨rest3, by simp only [List.length_cons] at h ⊢; omega⟩)
    | .ok (_, ⟨[], _⟩) => .error .unexpectedEnd
    | .ok (_, ⟨t :: _, _⟩) => .error (.unexpectedTok t)
  | t :: _ => .error (.unexpectedTok t)
termination_by toks => (toks.length, 0)

/-- Modelled from the spec: `NOT` is a prefix operator binding tighter than
`AND`; its operand is another `NOT`-expression or an atom. -/
def parseNot : (toks : List Tok) → Except PErr (Rule × { r : List Tok // r.length < toks.length })
  | .TNOT :: rest =>
    match parseNot rest with
    | .error e => .error e
    | .ok (r, ⟨rest2, h⟩) =>
      .ok (.NOT r, ⟨rest2, by simp only [List.length_cons]; omega⟩)
  | other => parseAtom other
termination_by toks => (toks.length, 1)

/-- Modelled from the spec: left-associative `AND`-chain continuation. -/
def parseAndRest (acc : Rule) : (toks : List Tok) → Except PErr (Rule × { r : List Tok // r.length ≤ toks.length })
  | .TAND :: rest =>
    match parseNot rest with
    | .error e => .error e
    | .ok (r, ⟨rest2, h2⟩) =>
      match parseAndRest (.AND acc r) rest2 with
      | .error e => .error e
      | .ok (r2, ⟨rest3, h3⟩) =>
        .ok (r2, ⟨rest3, by simp only [List.length_cons]; omega⟩)
  | other => .ok (acc, ⟨other, Nat.le_refl _⟩)
termination_by toks => (toks.length, 0)

/-- Modelled from the spec: `AND`-level expression (binds tighter than `OR`). -/
def parseAnd (toks : List Tok) : Except PErr (Rule × { r : List Tok // r.length < toks.length }) :=
  match parseNot toks with
  | .error e => .error e
  | .ok (l, ⟨rest1, h1⟩) =>
    match parseAndRest l rest1 with
    | .error e => .error e
    | .ok (r, ⟨rest2, h2⟩) => .ok (r, ⟨rest2, by omega⟩)
termination_by (toks.length, 2)

/-- Modelled from the spec: left-associative `OR`-chain continuation. -/
def parseOrRest (acc : Rule) : (toks : List Tok) → Except PErr (Rule × { r : List Tok // r.length ≤ toks.length })
  | .TOR :: rest =>
    match parseAnd rest with
    | .error e => .error e
    | .ok (r, ⟨rest2, h2⟩) =>
      match parseOrRest (.OR acc r) rest2 with
      | .error e => .error e
      | .ok (r2, ⟨rest3, h3⟩) =>
        .ok (r2, ⟨rest3, by simp only [List.length_cons]; omega⟩)
  | other => .ok (acc, ⟨other, Nat.le_refl _⟩)
termination_by toks => (toks.length, 0)

/-- Modelled from the spec: `OR`-level (whole) expression. -/
def parseOr (toks : List Tok) : Except PErr (Rule × { r : List Tok // r.length < toks.length }) :=
  match parseAnd toks with
  | .error e => .error e
  | .ok (l, ⟨rest1, h1⟩) =>
    match parseOrRest l rest1 with
    | .error e => .error e
    | .ok (r, ⟨rest2, h2⟩) => .ok (r, ⟨rest2, by omega⟩)
termination_by (toks.length, 3)

end

/-- Modelled from the spec: parse a whole token list, rejecting leftover
input. -/
def parseToks (toks : List Tok) : Except PErr Rule :=
  match parseOr toks with
  | .error e => .error e
  | .ok (r, ⟨[], _⟩) => .ok r
  | .ok (_, ⟨t :: _, _⟩) => .error (.unexpectedTok t)

/-- Modelled from the spec: `parse(text) -> AST` for the filter grammar. -/
def parseFilter (s : String) : Except PErr Rule :=
  match tokenize s with
  | .error e => .error e
  | .ok toks => parseToks toks

/-- Error kinds that can escape a request handler: grammar `SyntaxError`s,
compiler `UnsupportedFilterError`s, and faults of the external index
capability. -/
inductive HandlerError where
  | parseFailure (e : PErr)
  | unsupportedFilter (msg : String)
  | indexFault (msg : String)
deriving DecidableEq

/-- `src/parseAlgoliaSQL.js` lines 30–34 (`module.exports`): parse the filter
text, then compile the AST against the index's combinator algebra. -/
def parseAlgoliaSQL (sql : String) : Except HandlerError SearchExpr :=
  match parseFilter sql with
  | .error e => .error (.parseFailure e)
  | .ok ast =>
    match buildSearchExpression ast with
    | .error (.unsupportedFilter m) => .error (.unsupportedFilter m)
    | .ok e => .ok e

/-- JavaScript `Array.prototype.join(sep)`. -/
def joinSep (sep : String) : List String → String
  | [] => ""
  | [s] => s
  | s :: rest => s ++ sep ++ joinSep sep rest

/-- One entry of the `facetFilters` request field: a bare match string or a
nested list of match strings (an OR-group). -/
abbrev FacetEntry := String ⊕ List String

/-- `index.js` line 110, the mapper inside the facet-filter normaliser: a
bare string is passed through unchanged, a nested list is joined with
` OR ` and wrapped in parentheses — no quoting or escaping of the member
strings. -/
def renderEntryText : FacetEntry → String
  | .inl s => s
  | .inr l => "(" ++ joinSep " OR " l ++ ")"

/-- `index.js` line 110: the facet-filter normaliser is textual —
`facetFilters.map(f => Array.isArray(f) ? '(' + f.join(' OR ') + ')' : f).join(' AND ')`,
with no quoting or escaping of the member strings. -/
def joinFacetFilters (ff : List FacetEntry) : String :=
  joinSep " AND " (ff.map renderEntryText)

/-- `index.js` lines 101–103: the text clause — when `query` is present push
it verbatim, except that a falsy (empty) string is replaced by `'*'`; when
absent push nothing. -/
def textClause : Option String → List SearchExpr
  | none => []
  | some q => [.leaf (if q = "" then "*" else q)]

/-- `index.js` lines 105–107: the filter clause — `if (filters)` skips both
an absent and an empty (falsy) string; otherwise parse and compile. -/
def filterClause : Option String → Except HandlerError (List SearchExpr)
  | none => .ok []
  | some f => if f = "" then .ok [] else (parseAlgoliaSQL f).map fun e => [e]

/-- `index.js` lines 109–111: the facet clause — join the entries into one
filter string and feed it to the same parser used for `filters` (a present
`facetFilters` array is always truthy, even when empty). -/
def facetClause : Option (List FacetEntry) → Except HandlerError (List SearchExpr)
  | none => .ok []
  | some ff => (parseAlgoliaSQL (joinFacetFilters ff)).map fun e => [e]

/-- `index.js` lines 100–111: assemble the `searchExp` list in source order —
text clause, then filter clause, then facet clause; the first parse/compile
failure aborts the handler. -/
def buildSearchExp (query filters : Option String) (facetFilters : Option (List FacetEntry)) :
    Except HandlerError (List SearchExpr) :=
  match filterClause filters with
  | .error e => .error e
  | .ok e2 =>
    match facetClause facetFilters with
    | .error e => .error e
    | .ok e3 => .ok (textClause query ++ e2 ++ e3)

/-- JavaScript `>=` restricted to same-type operands; any comparison touching
`undefined` is `false` (NaN semantics); cross-type coercions are outside the
model. -/
def jsGe : JsVal → JsVal → Bool
  | .num a, .num b => decide (b ≤ a)
  | .str a, .str b => decide (a = b) || decide (b < a)
  | .bool a, .bool b => decide (b.toNat ≤ a.toNat)
  | _, _ => false

/-- JavaScript `<=` under the same restrictions as `jsGe`. -/
def jsLe : JsVal → JsVal → Bool
  | .num a, .num b => decide (a ≤ b)
  | .str a, .str b => decide (a = b) || decide (a < b)
  | .bool a, .bool b => decide (a.toNat ≤ b.toNat)
  | _, _ => false

/-- `index.js` lines 124–131: the sort comparator —
`sortDesc ? (item2Attr >= item1Attr ? 1 : -1) : (item2Attr <= item1Attr ? 1 : -1)`.
Note it never returns 0. -/
def sortCmp (sortDesc : Bool) (attr : String) (item1 item2 : JsRec) : Int :=
  let item1Attr := recGet item1 attr
  let item2Attr := recGet item2 attr
  if sortDesc then (if jsGe item2Attr item1Attr then 1 else -1)
  else (if jsLe item2Attr item1Attr then 1 else -1)

/-- One insertion step of a comparator-driven sort: `x` stays in front of the
first element `y` with `cmp x y ≤ 0`. This is one concrete choice of sort
algorithm: it agrees with `Array.prototype.sort` for consistent comparison
functions, but for a comparator that never returns 0 on equal elements (such
as `sortCmp`) ECMAScript leaves the resulting order implementation-defined,
so no placement rule can be read off the language contract in that regime. -/
def insertCmp (cmp : JsRec → JsRec → Int) (x : JsRec) : List JsRec → List JsRec
  | [] => [x]
  | y :: ys => if cmp x y ≤ 0 then x :: y :: ys else y :: insertCmp cmp x ys

/-- Model of `Array.prototype.sort(comparator)` as a stable insertion sort.
Faithful for consistent comparison functions; for an inconsistent comparator
the engine's actual order is implementation-defined (ECMAScript sec. 23.1.3.30;
Node/V8's TimSort, for instance, leaves a two-element equal-valued pair
unchanged), so no theorem of this development rests on this definition's
behaviour in that regime. -/
def jsSort (cmp : JsRec → JsRec → Int) : List JsRec → List JsRec
  | [] => []
  | x :: xs => insertCmp cmp x (jsSort cmp xs)

/-- `index.js` lines 117–122: post-process one raw match —
`obj.objectID = obj._id; delete obj._id`. -/
def mapHit (r : JsRec) : JsRec :=
  recDel (recSet r "objectID" (recGet r "_id")) "_id"

/-- JavaScript `Array.prototype.slice(a, b)` for nonnegative indices:
the half-open window `[a, b)`. -/
def jsSlice (l : List JsRec) (a b : Nat) : List JsRec := (l.drop a).take (b - a)

/-- `Math.ceil(a / b)` over nonnegative integers with `b > 0` (the only
regime the route exercises: `hitsPerPage` defaults to 20). -/
def mathCeilDiv (a b : Nat) : Nat := a / b + (if a % b = 0 then 0 else 1)

/-- The JSON body answered by the query route (`index.js` lines 137–145);
the echoed `params`/`query` strings are omitted from the model. -/
structure QueryOutcome where
  hits : List JsRec
  page : Nat
  nbHits : Nat
  nbPages : Nat
  hitsPerPage : Nat
deriving DecidableEq

/-- `index.js` lines 92–146: the `POST /1/indexes/:indexName/query` pipeline.
The external index capability (`db.SEARCH`) is the argument `searchFn`,
mapping the assembled expression list to the raw matched records (the `obj`
payload of each raw result). -/
def runQuery (query filters : Option String) (facetFilters : Option (List FacetEntry))
    (page hitsPerPage : Nat) (sortAttribute : Option String) (sortDesc : Bool)
    (searchFn : List SearchExpr → List JsRec) : Except HandlerError QueryOutcome :=
  match buildSearchExp query filters facetFilters with
  | .error e => .error e
  | .ok searchExp =>
    let result := searchFn searchExp
    let nbHits := result.length
    let nbPages := mathCeilDiv nbHits hitsPerPage
    let hits := result.map mapHit
    let sorted := match sortAttribute with
      | some attr => jsSort (sortCmp sortDesc attr) hits
      | none => hits
    let start := page * hitsPerPage
    let stop := start + hitsPerPage - 1
    .ok { hits := jsSlice sorted start stop, page := page, nbHits := nbHits,
          nbPages := nbPages, hitsPerPage := hitsPerPage }

/-- HTTP responses of the query route: a 200 JSON result, or an error JSON
with its HTTP status and the `status` field carried in the body. -/
inductive HttpResponse where
  | queryOk (outcome : QueryOutcome)
  | errorJson (httpStatus : Nat) (message : String) (bodyStatus : Nat)
deriving DecidableEq

/-- `index.js` lines 10–19, `wrapAsyncMiddleware`: every rejected promise —
whatever the error was — is answered with HTTP status 400 and the body
`{message: 'Internal server error', status: 500}`. -/
def wrapAsyncMiddleware (r : Except HandlerError HttpResponse) : HttpResponse :=
  match r with
  | .ok resp => resp
  | .error _ => .errorJson 400 "Internal server error" 500

/-- The query route's async handler: a successful pipeline run answers the
outcome as JSON; any thrown error is a rejected promise. -/
def queryHandler (query filters : Option String) (facetFilters : Option (List FacetEntry))
    (page hitsPerPage : Nat) (sortAttribute : Option String) (sortDesc : Bool)
    (searchFn : List SearchExpr → List JsRec) : Except HandlerError HttpResponse :=
  (runQuery query filters facetFilters page hitsPerPage sortAttribute sortDesc searchFn).map .queryOk

/-- The query route as mounted: the async handler wrapped by the
error-catching middleware. -/
def handleQuery (query filters : Option String) (facetFilters : Option (List FacetEntry))
    (page hitsPerPage : Nat) (sortAttribute : Option String) (sortDesc : Bool)
    (searchFn : List SearchExpr → List JsRec) : HttpResponse :=
  wrapAsyncMiddleware (queryHandler query filters facetFilters page hitsPerPage
    sortAttribute sortDesc searchFn)

/-- Characters on which the modelled lexer does not break: anything except
space and parentheses. -/
def wordChar (c : Char) : Bool := !(c = ' ' || c = '(' || c = ')')

/-- Whether the lexer flushes the current word when looking at this suffix:
end of input or a delimiter character. -/
def headDelim : List Char → Bool
  | [] => true
  | c :: _ => c = ' ' || c = '(' || c = ')'

/-- Plain identifier/literal words of the grammar: nonempty, free of
delimiters and colons (so a `key:value` facet member is one lexer word with
exactly the one colon the grammar expects). -/
def plainWord (s : String) : Bool :=
  !s.data.isEmpty && s.data.all fun c => wordChar c && !(c = ':')

/-- One `key:value` facet member in structured form. -/
abbrev FacetPair := String × String

/-- One facet group in structured form: a bare member or an OR-group. -/
abbrev FacetGroup := FacetPair ⊕ List FacetPair

/-- Render a structured member back to the string a client sends. -/
def renderPair (p : FacetPair) : String := p.1 ++ ":" ++ p.2

/-- Render a structured facet group to a `facetFilters` entry. -/
def renderGroup : FacetGroup → FacetEntry
  | .inl p => .inl (renderPair p)
  | .inr l => .inr (l.map renderPair)

/-- Well-formed structured groups: plain words throughout, OR-groups
nonempty. -/
def groupWF : FacetGroup → Bool
  | .inl p => plainWord p.1 && plainWord p.2
  | .inr l => !l.isEmpty && l.all fun p => plainWord p.1 && plainWord p.2

/-- The `MATCH` leaf of one member. -/
def pairRule (p : FacetPair) : Rule := .MATCH p.1 p.2

/-- Left-associative `Or`-chain the grammar's left-recursive OR production
builds over further members. -/
def orChainRule (first : Rule) (ms : List FacetPair) : Rule :=
  ms.foldl (fun acc m => .OR acc (pairRule m)) first

/-- The AST of one facet group (the empty OR-group never arises for
well-formed groups). -/
def groupRule : FacetGroup → Rule
  | .inl p => pairRule p
  | .inr [] => .MATCH "" ""
  | .inr (m :: ms) => orChainRule (pairRule m) ms

/-- Left-associative `And`-chain over the groups. -/
def andChainRule (first : Rule) (gs : List FacetGroup) : Rule :=
  gs.foldl (fun acc g => .AND acc (groupRule g)) first

/-- The AST the whole normalised facet filter parses to. -/
def facetRule : List FacetGroup → Rule
  | [] => .MATCH "" ""
  | g :: gs => andChainRule (groupRule g) gs

/-- The token of one member. -/
def pairTok (p : FacetPair) : Tok := .TM p.1 p.2

/-- Tokens of the tail of an OR-group: `OR member` repeated. -/
def orToksTail : List FacetPair → List Tok
  | [] => []
  | m :: ms => .TOR :: pairTok m :: orToksTail ms

/-- Tokens of one facet group. -/
def groupToks : FacetGroup → List Tok
  | .inl p => [pairTok p]
  | .inr [] => []
  | .inr (m :: ms) => .LP :: pairTok m :: (orToksTail ms ++ [.RP])

/-- Tokens of the tail of the AND-chain: `AND group` repeated. -/
def andToksTail : List FacetGroup → List Tok
  | [] => []
  | g :: gs => .TAND :: (groupToks g ++ andToksTail gs)

/-- Tokens of the whole normalised facet filter. -/
def facetToks : List FacetGroup → List Tok
  | [] => []
  | g :: gs => groupToks g ++ andToksTail gs

/-- The compiled leaf of one member. -/
def pairExpr (p : FacetPair) : SearchExpr := .leaf (p.1 ++ ":" ++ p.2)

/-- Compiled left-associative OR-chain. -/
def orChainExpr (first : SearchExpr) (ms : List FacetPair) : SearchExpr :=
  ms.foldl (fun acc m => .OR acc (pairExpr m)) first

/-- Compiled expression of one facet group. -/
def groupExpr : FacetGroup → SearchExpr
  | .inl p => pairExpr p
  | .inr [] => pairExpr ("", "")
  | .inr (m :: ms) => orChainExpr (pairExpr m) ms

/-- Compiled left-associative AND-chain. -/
def andChainExpr (first : SearchExpr) (gs : List FacetGroup) : SearchExpr :=
  gs.foldl (fun acc g => .AND acc (groupExpr g)) first

/-- The compiled expression of the whole normalised facet filter. -/
def facetExpr : List FacetGroup → SearchExpr
  | [] => pairExpr ("", "")
  | g :: gs => andChainExpr (groupExpr g) gs

/-- `parseAtom` with the termination bound projected away. -/
def parseAtomL (toks : List Tok) : Except PErr (Rule × List Tok) :=
  (parseAtom toks).map fun p => (p.1, p.2.val)

/-- `parseNot` with the termination bound projected away. -/
def parseNotL (toks : List Tok) : Except PErr (Rule × List Tok) :=
  (parseNot toks).map fun p => (p.1, p.2.val)

/-- `parseAnd` with the termination bound projected away. -/
def parseAndL (toks : List Tok) : Except PErr (Rule × List Tok) :=
  (parseAnd toks).map fun p => (p.1, p.2.val)

/-- `parseOr` with the termination bound projected away. -/
def parseOrL (toks : List Tok) : Except PErr (Rule × List Tok) :=
  (parseOr toks).map fun p => (p.1, p.2.val)

/-- `parseAndRest` with the termination bound projected away. -/
def parseAndRestL (acc : Rule) (toks : List Tok) : Except PErr (Rule × List Tok) :=
  (parseAndRest acc toks).map fun p => (p.1, p.2.val)

/-- `parseOrRest` with the termination bound projected away. -/
def parseOrRestL (acc : Rule) (toks : List Tok) : Except PErr (Rule × List Tok) :=
  (parseOrRest acc toks).map fun p => (p.1, p.2.val)

/-- The concrete outcome of querying 25 hits at page 0 with 20 per page. -/
def out25 : QueryOutcome :=
  { hits := (List.range 19).map fun i => [("objectID", JsVal.num i)],
    page := 0, nbHits := 25, nbPages := 2, hitsPerPage := 20 }

/-- 25 raw matches, as returned by the index capability. -/
def raw25 : List JsRec := (List.range 25).map fun i => [("_id", JsVal.num i)]

@[simp] theorem ok_bind {ε α β : Type} (a : α) (f : α → Except ε β) :
    (Except.ok a >>= f) = f a := rfl

@[simp] theorem error_bind {ε α β : Type} (e : ε) (f : α → Except ε β) :
    (Except.error e >>= f : Except ε β) = .error e := rfl

theorem recFind_recSet_self (r : JsRec) (k : String) (v : JsVal) :
    recFind (recSet r k v) k = some v := by
  induction r with
  | nil => simp [recSet, recFind]
  | cons p rest ih =>
    obtain ⟨k', v'⟩ := p
    by_cases h : k' = k <;> simp [recSet, recFind, h, ih]

theorem recFind_recSet_ne (r : JsRec) (k k' : String) (v : JsVal) (h : k' ≠ k) :
    recFind (recSet r k v) k' = recFind r k' := by
  induction r with
  | nil => simp [recSet, recFind, Ne.symm h]
  | cons p rest ih =>
    obtain ⟨k'', v''⟩ := p
    by_cases h1 : k'' = k
    · subst h1
      simp [recSet, recFind, Ne.symm h]
    · by_cases h2 : k'' = k' <;> simp [recSet, recFind, h1, h2, h, ih]

theorem recFind_recDel_self (r : JsRec) (k : String) :
    recFind (recDel r k) k = none := by
  induction r with
  | nil => simp [recDel, recFind]
  | cons p rest ih =>
    obtain ⟨k', v'⟩ := p
    by_cases h : k' = k <;> simp [recDel, recFind, h, ih]

theorem recFind_recDel_ne (r : JsRec) (k k' : String) (h : k' ≠ k) :
    recFind (recDel r k) k' = recFind r k' := by
  induction r with
  | nil => simp [recDel, recFind]
  | cons p rest ih =>
    obtain ⟨k'', v''⟩ := p
    by_cases h1 : k'' = k
    · subst h1
      simp [recDel, recFind, Ne.symm h, ih]
    · by_cases h2 : k'' = k' <;> simp [recDel, recFind, h1, h2, h, ih]

/-- **C9** For every raw match, the post-processing `mapHit` (the handler's
`obj.objectID = obj._id; delete obj._id`) gives `objectID` the value of
`_id`, removes `_id`, and leaves every other field of the record unchanged. -/
theorem mapHit_renamesOnlyId (r : JsRec) :
    recGet (mapHit r) "objectID" = recGet r "_id"
    ∧ recFind (mapHit r) "_id" = none
    ∧ (∀ k, k ≠ "_id" → k ≠ "objectID" → recFind (mapHit r) k = recFind r k) := by
  unfold mapHit
  refine ⟨?_, ?_, ?_⟩
  · rw [recGet, recFind_recDel_ne _ _ _ (by decide), recFind_recSet_self]
    rfl
  · exact recFind_recDel_self _ _
  · intro k hk1 hk2
    rw [recFind_recDel_ne _ _ _ hk1, recFind_recSet_ne _ _ _ _ hk2]

/-- Witness for C9 at a concrete record and field. -/
theorem mapHit_renamesOnlyId_witness :
    recGet (mapHit [("_id", .num 7), ("title", .str "x")]) "objectID"
      = recGet [("_id", .num 7), ("title", .str "x")] "_id"
    ∧ recFind (mapHit [("_id", .num 7), ("title", .str "x")]) "_id" = none
    ∧ recFind (mapHit [("_id", .num 7), ("title", .str "x")]) "title"
      = recFind [("_id", .num 7), ("title", .str "x")] "title" :=
  ⟨(mapHit_renamesOnlyId _).1, (mapHit_renamesOnlyId _).2.1,
    (mapHit_renamesOnlyId _).2.2 "title" (by decide) (by decide)⟩

/-- **C8** The text clause of the search expression: a present non-empty
`query` is passed verbatim, a present empty `query` becomes the wildcard
`'*'`, an absent `query` contributes no clause; and the assembled expression
list is exactly the text clause prepended to the clauses built without a
query. -/
theorem textClause_cases :
    textClause none = []
    ∧ textClause (some "") = [.leaf "*"]
    ∧ (∀ q, q ≠ "" → textClause (some q) = [.leaf q])
    ∧ (∀ (q : Option String) f ff tail, buildSearchExp none f ff = .ok tail →
        buildSearchExp q f ff = .ok (textClause q ++ tail)) := by
  refine ⟨rfl, rfl, ?_, ?_⟩
  · intro q hq
    simp [textClause, hq]
  · intro q f ff tail h
    unfold buildSearchExp at h ⊢
    cases hf : filterClause f with
    | error e => simp [hf] at h
    | ok e2 =>
      cases hff : facetClause ff with
      | error e => simp [hf, hff] at h
      | ok e3 =>
        simp only [hf, hff, textClause, List.nil_append] at h ⊢
        injection h with h
        rw [← h, List.append_assoc]

/-- Witness for C8: a present non-empty query is prepended verbatim. -/
theorem textClause_cases_witness :
    textClause (some "hello") = [.leaf "hello"]
    ∧ buildSearchExp (some "hello") none none = .ok (textClause (some "hello") ++ []) :=
  ⟨textClause_cases.2.2.1 "hello" (by decide),
    textClause_cases.2.2.2 (some "hello") none none [] (by decide)⟩

theorem build_classify (r : Rule) :
    (wellFormed r = true → ∃ e, buildSearchExpression r = .ok e)
    ∧ (wellFormed r = false →
        buildSearchExpression r = .error (.unsupportedFilter "NOT only supports MATCH")
        ∨ buildSearchExpression r = .error (.unsupportedFilter "UNKNOWN TOKEN")) := by
  induction r with
  | MATCH k v => exact ⟨fun _ => ⟨_, rfl⟩, by simp [wellFormed]⟩
  | AND l r ihl ihr =>
    constructor
    · intro h
      rw [wellFormed, Bool.and_eq_true] at h
      obtain ⟨el, hl⟩ := ihl.1 h.1
      obtain ⟨er, hr⟩ := ihr.1 h.2
      exact ⟨.AND el er, by simp [buildSearchExpression, hl, hr]⟩
    · intro h
      rw [wellFormed, Bool.and_eq_false_iff] at h
      rcases h with h | h
      · rcases ihl.2 h with hl | hl <;>
          simp [buildSearchExpression, hl]
      · cases hwl : wellFormed l with
        | false =>
          rcases ihl.2 hwl with hl | hl <;> simp [buildSearchExpression, hl]
        | true =>
          obtain ⟨el, hl⟩ := ihl.1 hwl
          rcases ihr.2 h with hr | hr <;> simp [buildSearchExpression, hl, hr]
  | OR l r ihl ihr =>
    constructor
    · intro h
      rw [wellFormed, Bool.and_eq_true] at h
      obtain ⟨el, hl⟩ := ihl.1 h.1
      obtain ⟨er, hr⟩ := ihr.1 h.2
      exact ⟨.OR el er, by simp [buildSearchExpression, hl, hr]⟩
    · intro h
      rw [wellFormed, Bool.and_eq_false_iff] at h
      rcases h with h | h
      · rcases ihl.2 h with hl | hl <;>
          simp [buildSearchExpression, hl]
      · cases hwl : wellFormed l with
        | false =>
          rcases ihl.2 hwl with hl | hl <;> simp [buildSearchExpression, hl]
        | true =>
          obtain ⟨el, hl⟩ := ihl.1 hwl
          rcases ihr.2 h with hr | hr <;> simp [buildSearchExpression, hl, hr]
  | NOT v ihv =>
    constructor
    · intro h
      rw [wellFormed] at h
      cases v with
      | MATCH k val => exact ⟨_, rfl⟩
      | AND _ _ => simp [Rule.isMatch] at h
      | OR _ _ => simp [Rule.isMatch] at h
      | NOT _ => simp [Rule.isMatch] at h
      | UNKNOWN _ => simp [Rule.isMatch] at h
    · intro h
      rw [wellFormed] at h
      cases v with
      | MATCH k val => simp [Rule.isMatch] at h
      | AND _ _ => exact Or.inl rfl
      | OR _ _ => exact Or.inl rfl
      | NOT _ => exact Or.inl rfl
      | UNKNOWN _ => exact Or.inl rfl
  | UNKNOWN t => exact ⟨by simp [wellFormed], fun _ => Or.inr rfl⟩

/-- **C3** The compiler fails exactly on two AST shapes, with distinguishable
error kinds: a `NOT` whose operand is not a `MATCH` fails with
"NOT only supports MATCH"; an unrecognised token fails with "UNKNOWN TOKEN";
every failure is one of these two; and every well-formed AST compiles. -/
theorem compile_failureClassification :
    (∀ v : Rule, v.isMatch = false →
      buildSearchExpression (.NOT v) = .error (.unsupportedFilter "NOT only supports MATCH"))
    ∧ (∀ t, buildSearchExpression (.UNKNOWN t) = .error (.unsupportedFilter "UNKNOWN TOKEN"))
    ∧ (∀ r : Rule, (∃ e, buildSearchExpression r = .ok e) ↔ wellFormed r = true)
    ∧ (∀ r : Rule, wellFormed r = false →
        buildSearchExpression r = .error (.unsupportedFilter "NOT only supports MATCH")
        ∨ buildSearchExpression r = .error (.unsupportedFilter "UNKNOWN TOKEN"))
    ∧ (CompileErr.unsupportedFilter "NOT only supports MATCH"
        ≠ CompileErr.unsupportedFilter "UNKNOWN TOKEN") := by
  refine ⟨?_, fun t => rfl, ?_, fun r => (build_classify r).2, by decide⟩
  · intro v hv
    cases v with
    | MATCH k val => simp [Rule.isMatch] at hv
    | AND _ _ => rfl
    | OR _ _ => rfl
    | NOT _ => rfl
    | UNKNOWN _ => rfl
  · intro r
    constructor
    · rintro ⟨e, he⟩
      cases hwf : wellFormed r with
      | true => rfl
      | false => rcases (build_classify r).2 hwf with h | h <;> rw [he] at h <;> cases h
    · exact (build_classify r).1

/-- Witness for C3: both failure shapes at concrete ASTs, and a well-formed
AST that compiles. -/
theorem compile_failureClassification_witness :
    buildSearchExpression (.NOT (.AND (.MATCH "a" "1") (.MATCH "b" "2")))
      = .error (.unsupportedFilter "NOT only supports MATCH")
    ∧ buildSearchExpression (.UNKNOWN "RANGE")
      = .error (.unsupportedFilter "UNKNOWN TOKEN")
    ∧ (∃ e, buildSearchExpression (.OR (.MATCH "a" "1") (.NOT (.MATCH "b" "2"))) = .ok e) :=
  ⟨compile_failureClassification.1 (.AND (.MATCH "a" "1") (.MATCH "b" "2")) (by decide),
    compile_failureClassification.2.1 "RANGE",
    (compile_failureClassification.2.2.1 _).mpr (by decide)⟩

/-- **C2** The compiler maps `MATCH` to the leaf `key:value`, `AND`/`OR` to
the algebra's combinators over the compiled children, and `NOT` of a `MATCH`
to `NOT('*', compiled operand)`; in particular, parsing and compiling
"a:1 AND b:2" yields `AND(a:1, b:2)` and "NOT a:1" yields `NOT(*, a:1)`. -/
theorem compile_mapsConnectives :
    (∀ k v, buildSearchExpression (.MATCH k v) = .ok (.leaf (k ++ ":" ++ v)))
    ∧ (∀ l r el er, buildSearchExpression l = .ok el → buildSearchExpression r = .ok er →
        buildSearchExpression (.AND l r) = .ok (.AND el er))
    ∧ (∀ l r el er, buildSearchExpression l = .ok el → buildSearchExpression r = .ok er →
        buildSearchExpression (.OR l r) = .ok (.OR el er))
    ∧ (∀ k v, buildSearchExpression (.NOT (.MATCH k v)) = .ok (.NOT "*" (.leaf (k ++ ":" ++ v))))
    ∧ parseAlgoliaSQL "a:1 AND b:2" = .ok (.AND (.leaf "a:1") (.leaf "b:2"))
    ∧ parseAlgoliaSQL "NOT a:1" = .ok (.NOT "*" (.leaf "a:1")) := by
  refine ⟨fun k v => rfl, ?_, ?_, fun k v => rfl, ?_, ?_⟩
  · intro l r el er hl hr
    simp [buildSearchExpression, hl, hr]
  · intro l r el er hl hr
    simp [buildSearchExpression, hl, hr]
  · have ht : tokenize "a:1 AND b:2" = .ok [.TM "a" "1", .TAND, .TM "b" "2"] := by decide
    simp [parseAlgoliaSQL, parseFilter, ht, parseToks, parseOr, parseAnd, parseNot, parseAtom,
      parseOrRest, parseAndRest, buildSearchExpression]
  · have ht : tokenize "NOT a:1" = .ok [.TNOT, .TM "a" "1"] := by decide
    simp [parseAlgoliaSQL, parseFilter, ht, parseToks, parseOr, parseAnd, parseNot, parseAtom,
      parseOrRest, parseAndRest, buildSearchExpression]

/-- Witness for C2 at concrete subtrees. -/
theorem compile_mapsConnectives_witness :
    buildSearchExpression (.AND (.MATCH "a" "1") (.MATCH "b" "2"))
      = .ok (.AND (.leaf "a:1") (.leaf "b:2"))
    ∧ buildSearchExpression (.OR (.MATCH "a" "1") (.MATCH "b" "2"))
      = .ok (.OR (.leaf "a:1") (.leaf "b:2")) :=
  ⟨compile_mapsConnectives.2.1 _ _ _ _ (by decide) (by decide),
    compile_mapsConnectives.2.2.1 _ _ _ _ (by decide) (by decide)⟩

theorem jsGe_refl (v : JsVal) (hv : v ≠ .undefined) : jsGe v v = true := by
  cases v with
  | num n => simp [jsGe]
  | str s => simp [jsGe]
  | bool b => simp [jsGe]
  | undefined => exact absurd rfl hv

theorem jsLe_refl (v : JsVal) (hv : v ≠ .undefined) : jsLe v v = true := by
  cases v with
  | num n => simp [jsLe]
  | str s => simp [jsLe]
  | bool b => simp [jsLe]
  | undefined => exact absurd rfl hv

/-- The sort comparator is not a consistent comparison function: on two
records with equal, defined values of the sort attribute it reports each
record strictly greater than the other, in both sort directions.  ECMAScript
therefore leaves the order `Array.prototype.sort` produces on such records
implementation-defined: stability over equal-valued records is neither
guaranteed nor excluded by the source alone. -/
theorem sortCmp_inconsistent_on_equal (sd : Bool) (attr : String) (a b : JsRec)
    (hab : recGet a attr = recGet b attr) (hv : recGet a attr ≠ .undefined) :
    sortCmp sd attr a b = 1 ∧ sortCmp sd attr b a = 1 := by
  have h1 : sortCmp sd attr a b = 1 := by
    unfold sortCmp
    cases sd <;>
      simp [← hab, jsGe_refl _ hv, jsLe_refl _ hv]
  have hv2 : recGet b attr ≠ .undefined := hab ▸ hv
  have h2 : sortCmp sd attr b a = 1 := by
    unfold sortCmp
    cases sd <;>
      simp [hab, jsGe_refl _ hv2, jsLe_refl _ hv2]
  exact ⟨h1, h2⟩

/-- **C1** (documents the code bug) The pagination slice is
`hits.slice(from, from + hitsPerPage - 1)`, a half-open window one short of
the claimed `[page*hitsPerPage, page*hitsPerPage + hitsPerPage)`: with 25
hits and `hitsPerPage = 20`, page 0 answers 19 hits (the claim and the
spec's own §4.4/§8 say 20), while page 1 still answers the remaining 5. -/
theorem paginationWindow_dropsLastItem :
    (runQuery (some "x") none none 0 20 none false (fun _ => raw25)).map
        (fun o => (o.hits.length, o.nbHits, o.nbPages)) = .ok (19, 25, 2)
    ∧ (runQuery (some "x") none none 1 20 none false (fun _ => raw25)).map
        (fun o => (o.hits.length, o.nbHits, o.nbPages)) = .ok (5, 25, 2)
    ∧ jsSlice raw25 (0 * 20) (0 * 20 + 20 - 1) ≠ raw25.take 20 := by
  refine ⟨by decide, by decide, by decide⟩

theorem mathCeilDiv_least (a b : Nat) (hb : 0 < b) :
    a ≤ mathCeilDiv a b * b ∧ ∀ m, a ≤ m * b → mathCeilDiv a b ≤ m := by
  have hdm : b * (a / b) + a % b = a := Nat.div_add_mod a b
  have hmod : a % b < b := Nat.mod_lt _ hb
  unfold mathCeilDiv
  by_cases h0 : a % b = 0
  · rw [if_pos h0, Nat.add_zero]
    rw [h0, Nat.add_zero] at hdm
    constructor
    · rw [Nat.mul_comm]
      omega
    · intro m hm
      rw [Nat.mul_comm] at hm
      have h1 : b * (a / b) ≤ b * m := by omega
      exact Nat.le_of_mul_le_mul_left h1 hb
  · rw [if_neg h0]
    constructor
    · rw [Nat.succ_mul, Nat.mul_comm]
      omega
    · intro m hm
      rw [Nat.mul_comm] at hm
      by_contra hc
      have hmq : m ≤ a / b := by omega
      have h2 : b * m ≤ b * (a / b) := Nat.mul_le_mul_left b hmq
      omega

/-- **C7** `nbHits` is the number of matches before pagination, and
`nbPages = Math.ceil(nbHits / hitsPerPage)` is exactly the ceiling of the
quotient: the least number of pages covering all hits. -/
theorem nbPages_ceil :
    ∀ (raw : List JsRec) (q f : Option String) (ff : Option (List FacetEntry))
      (page hpp : Nat) (sa : Option String) (sd : Bool) (out : QueryOutcome),
      0 < hpp →
      runQuery q f ff page hpp sa sd (fun _ => raw) = .ok out →
      out.nbHits = raw.length
      ∧ out.nbPages = mathCeilDiv raw.length hpp
      ∧ raw.length ≤ out.nbPages * hpp
      ∧ (∀ m, raw.length ≤ m * hpp → out.nbPages ≤ m) := by
  intro raw q f ff page hpp sa sd out hpp_pos hrun
  unfold runQuery at hrun
  cases hb : buildSearchExp q f ff with
  | error e => rw [hb] at hrun; cases hrun
  | ok exps =>
    rw [hb] at hrun
    injection hrun with hrun
    rw [← hrun]
    exact ⟨rfl, rfl, (mathCeilDiv_least _ _ hpp_pos).1, (mathCeilDiv_least _ _ hpp_pos).2⟩

/-- Witness for C7: 25 hits at 20 per page give nbPages = 2. -/
theorem nbPages_ceil_witness :
    out25.nbHits = raw25.length ∧ out25.nbPages = mathCeilDiv raw25.length 20
    ∧ raw25.length ≤ out25.nbPages * 20 ∧ out25.nbPages = 2 :=
  have h := nbPages_ceil raw25 (some "x") none none 0 20 none false out25
    (by decide) (by decide)
  ⟨h.1, h.2.1, h.2.2.1, rfl⟩

/-- Counterexample to C5 as stated: the middleware's response to a filter
parse failure is byte-for-byte the response to an unrelated internal fault —
HTTP 400 with body message "Internal server error" and body status 500 — so
the failure is not surfaced distinguishably, nor labelled as a client error. -/
theorem errorSurface_cex :
    wrapAsyncMiddleware (.error (.parseFailure .unexpectedEnd))
      = wrapAsyncMiddleware (.error (.indexFault "index unavailable"))
    ∧ wrapAsyncMiddleware (.error (.parseFailure .unexpectedEnd))
      = .errorJson 400 "Internal server error" 500
    ∧ (HandlerError.parseFailure .unexpectedEnd
        ≠ HandlerError.indexFault "index unavailable") := by
  decide

/-- **C5** (amended) A filter that fails to parse or compile does make the
whole request fail, but the middleware answers every error — parse failure,
unsupported filter, or unrelated internal fault alike — with the one fixed
response: HTTP status 400, body message "Internal server error", body status
field 500. -/
theorem errorSurface_uniformResponse :
    (∀ e : HandlerError,
      wrapAsyncMiddleware (.error e) = .errorJson 400 "Internal server error" 500)
    ∧ (∀ (q : Option String) (f : String) (ff : Option (List FacetEntry))
        (page hpp : Nat) (sa : Option String) (sd : Bool)
        (sf : List SearchExpr → List JsRec) (e : HandlerError),
        f ≠ "" → parseAlgoliaSQL f = .error e →
        handleQuery q (some f) ff page hpp sa sd sf
          = .errorJson 400 "Internal server error" 500) := by
  constructor
  · intro e
    rfl
  · intro q f ff page hpp sa sd sf e hf hp
    unfold handleQuery queryHandler runQuery buildSearchExp filterClause
    simp [hf, hp, wrapAsyncMiddleware, Except.map]

/-- Witness for the amended C5: the unparsable filter "AND" makes the whole
request answer the fixed 400 response. -/
theorem errorSurface_uniformResponse_witness :
    handleQuery none (some "AND") none 0 20 none false (fun _ => [])
      = .errorJson 400 "Internal server error" 500 :=
  errorSurface_uniformResponse.2 none "AND" none 0 20 none false (fun _ => [])
    (.parseFailure (.unexpectedTok .TAND)) (by decide)
    (by
      have ht : tokenize "AND" = .ok [.TAND] := by decide
      simp [parseAlgoliaSQL, parseFilter, ht, parseToks, parseOr, parseAnd, parseNot,
        parseAtom, parseOrRest, parseAndRest])

theorem flushTok_nil (ts : List Tok) : flushTok [] ts = .ok ts := rfl

theorem flushTok_word (w : List Char) (ts : List Tok) (t : Tok) (hw : w ≠ [])
    (hcl : classifyWord w = .ok t) : flushTok w.reverse ts = .ok (t :: ts) := by
  obtain ⟨c, cs, hc⟩ : ∃ c cs, w.reverse = c :: cs := by
    cases hr : w.reverse with
    | nil =>
      have : w = [] := by simpa using congrArg List.reverse hr
      exact absurd this hw
    | cons c cs => exact ⟨c, cs, rfl⟩
  have hrev : (c :: cs).reverse = w := by rw [← hc, List.reverse_reverse]
  rw [hc]
  show flushTok (c :: cs) ts = _
  simp [flushTok, hrev, hcl, pure, Except.pure]

theorem tokAux_word_chars (w : List Char) (acc rest : List Char)
    (hw : ∀ c ∈ w, wordChar c = true) :
    tokAux acc (w ++ rest) = tokAux (w.reverse ++ acc) rest := by
  induction w generalizing acc with
  | nil => simp
  | cons c cs ih =>
    have hc := hw c (by simp)
    simp only [wordChar, Bool.not_eq_true', Bool.or_eq_false_iff, decide_eq_false_iff_not] at hc
    obtain ⟨⟨hc1, hc2⟩, hc3⟩ := hc
    show tokAux acc (c :: (cs ++ rest)) = _
    simp only [tokAux]
    rw [if_neg hc1, if_neg hc2, if_neg hc3]
    rw [ih (c :: acc) fun c' hc' => hw c' (by simp [hc'])]
    simp [List.append_assoc]

theorem tokAux_space (rest : List Char) :
    tokAux [] (' ' :: rest) = tokAux [] rest := by
  cases h : tokAux [] rest with
  | error e => simp [tokAux, h]
  | ok ts => simp [tokAux, h, flushTok_nil]

theorem tokAux_lp (rest : List Char) :
    tokAux [] ('(' :: rest) = (tokAux [] rest).map (fun ts => Tok.LP :: ts) := by
  cases h : tokAux [] rest with
  | error e => simp [tokAux, h, Except.map]
  | ok ts => simp [tokAux, h, flushTok_nil, Except.map]

theorem tokAux_rp (rest : List Char) :
    tokAux [] (')' :: rest) = (tokAux [] rest).map (fun ts => Tok.RP :: ts) := by
  cases h : tokAux [] rest with
  | error e => simp [tokAux, h, Except.map]
  | ok ts => simp [tokAux, h, flushTok_nil, Except.map]

theorem tokAux_word_then (w : List Char) (rest : List Char) (ts : List Tok) (t : Tok)
    (hw : w ≠ []) (hch : ∀ c ∈ w, wordChar c = true) (hr : headDelim rest = true)
    (hrest : tokAux [] rest = .ok ts) (hcl : classifyWord w = .ok t) :
    tokAux [] (w ++ rest) = .ok (t :: ts) := by
  rw [tokAux_word_chars w [] rest hch, List.append_nil]
  cases rest with
  | nil =>
    have hts : ts = [] := by
      have := hrest.symm.trans (flushTok_nil [])
      injection this
    subst hts
    show tokAux w.reverse [] = .ok [t]
    simp only [tokAux]
    exact flushTok_word w [] t hw hcl
  | cons c rest' =>
    have hdel : (c = ' ' ∨ c = '(') ∨ c = ')' := by
      simp only [headDelim, Bool.or_eq_true, decide_eq_true_eq] at hr
      tauto
    rcases hdel with (hdel | hdel) | hdel
    · subst hdel
      rw [tokAux_space] at hrest
      have hflush := flushTok_word w ts t hw hcl
      simp [tokAux, hrest, hflush]
    · subst hdel
      rw [tokAux_lp] at hrest
      cases h' : tokAux [] rest' with
      | error e => rw [h'] at hrest; simp [Except.map] at hrest
      | ok ts' =>
        rw [h'] at hrest
        simp only [Except.map] at hrest
        injection hrest with hrest
        subst hrest
        have hflush := flushTok_word w (Tok.LP :: ts') t hw hcl
        simp [tokAux, h', hflush]
    · subst hdel
      rw [tokAux_rp] at hrest
      cases h' : tokAux [] rest' with
      | error e => rw [h'] at hrest; simp [Except.map] at hrest
      | ok ts' =>
        rw [h'] at hrest
        simp only [Except.map] at hrest
        injection hrest with hrest
        subst hrest
        have hflush := flushTok_word w (Tok.RP :: ts') t hw hcl
        simp [tokAux, h', hflush]

theorem splitColon_append (k v : List Char) (hk : (':' : Char) ∉ k) :
    splitColon (k ++ ':' :: v) = some (k, v) := by
  induction k with
  | nil => simp [splitColon]
  | cons c cs ih =>
    have hc : ¬(c = ':') := fun h => hk (by simp [h])
    simp [splitColon, hc, ih fun h => hk (List.mem_cons_of_mem _ h)]

theorem plainWord_ne_nil (s : String) (hs : plainWord s = true) : s.data ≠ [] := by
  simp only [plainWord, Bool.and_eq_true, Bool.not_eq_true'] at hs
  simpa [List.isEmpty_iff] using hs.1

theorem plainWord_chars (s : String) (hs : plainWord s = true) :
    ∀ c ∈ s.data, wordChar c = true ∧ ¬(c = ':') := by
  simp only [plainWord, Bool.and_eq_true, List.all_eq_true, Bool.not_eq_true',
    decide_eq_false_iff_not] at hs
  intro c hc
  exact hs.2 c hc

theorem classifyWord_pair (k v : String)
    (hk : plainWord k = true) (hv : plainWord v = true) :
    classifyWord (k.data ++ ':' :: v.data) = .ok (.TM k v) := by
  have hkc : (':' : Char) ∉ k.data := fun hmem => (plainWord_chars k hk ':' hmem).2 rfl
  have hmem : (':' : Char) ∈ k.data ++ ':' :: v.data := by simp
  have h1 : k.data ++ ':' :: v.data ≠ "AND".data := by
    intro h; rw [h] at hmem; exact absurd hmem (by decide)
  have h2 : k.data ++ ':' :: v.data ≠ "OR".data := by
    intro h; rw [h] at hmem; exact absurd hmem (by decide)
  have h3 : k.data ++ ':' :: v.data ≠ "NOT".data := by
    intro h; rw [h] at hmem; exact absurd hmem (by decide)
  have hkE : k.data.isEmpty = false := by
    cases hd : k.data with
    | nil => exact absurd hd (plainWord_ne_nil k hk)
    | cons a l => rfl
  have hvE : v.data.isEmpty = false := by
    cases hd : v.data with
    | nil => exact absurd hd (plainWord_ne_nil v hv)
    | cons a l => rfl
  unfold classifyWord
  rw [if_neg h1, if_neg h2, if_neg h3, splitColon_append _ _ hkc]
  simp [hkE, hvE]

theorem renderPair_data (p : FacetPair) :
    (renderPair p).data = p.1.data ++ ':' :: p.2.data := by
  simp [renderPair, String.data_append]

theorem tokAux_pair_then (p : FacetPair) (rest : List Char) (ts : List Tok)
    (hk : plainWord p.1 = true) (hv : plainWord p.2 = true)
    (hr : headDelim rest = true) (hrest : tokAux [] rest = .ok ts) :
    tokAux [] ((renderPair p).data ++ rest) = .ok (pairTok p :: ts) := by
  rw [renderPair_data]
  refine tokAux_word_then _ _ _ _ (by simp) ?_ hr hrest (classifyWord_pair _ _ hk hv)
  intro c hc
  rcases List.mem_append.mp hc with hc | hc
  · exact (plainWord_chars _ hk c hc).1
  · rcases List.mem_cons.mp hc with hc | hc
    · subst hc; decide
    · exact (plainWord_chars _ hv c hc).1

theorem tokAux_orGroup (ms : List FacetPair) (m : FacetPair) (rest : List Char) (ts : List Tok)
    (hm : plainWord m.1 = true ∧ plainWord m.2 = true)
    (hms : ∀ p ∈ ms, plainWord p.1 = true ∧ plainWord p.2 = true)
    (hr : headDelim rest = true) (hrest : tokAux [] rest = .ok ts) :
    tokAux [] ((joinSep " OR " ((m :: ms).map renderPair)).data ++ rest)
      = .ok (pairTok m :: (orToksTail ms ++ ts)) := by
  induction ms generalizing m with
  | nil =>
    simp only [List.map_cons, List.map_nil, joinSep, orToksTail, List.nil_append]
    exact tokAux_pair_then m rest ts hm.1 hm.2 hr hrest
  | cons m2 ms' ih =>
    have hm2 := hms m2 (by simp)
    have hms' : ∀ p ∈ ms', plainWord p.1 = true ∧ plainWord p.2 = true :=
      fun p hp => hms p (by simp [hp])
    have hinner : tokAux [] ((joinSep " OR " ((m2 :: ms').map renderPair)).data ++ rest)
        = .ok (pairTok m2 :: (orToksTail ms' ++ ts)) := ih m2 hm2 hms'
    have hrest2 : tokAux []
        (' ' :: ((joinSep " OR " ((m2 :: ms').map renderPair)).data ++ rest))
        = .ok (pairTok m2 :: (orToksTail ms' ++ ts)) := by
      rw [tokAux_space]; exact hinner
    have hword : tokAux []
        ('O' :: 'R' :: ' ' :: ((joinSep " OR " ((m2 :: ms').map renderPair)).data ++ rest))
        = .ok (Tok.TOR :: pairTok m2 :: (orToksTail ms' ++ ts)) := by
      have h := tokAux_word_then ['O', 'R']
        (' ' :: ((joinSep " OR " ((m2 :: ms').map renderPair)).data ++ rest))
        (pairTok m2 :: (orToksTail ms' ++ ts)) Tok.TOR
        (by simp) (by decide) (by simp [headDelim]) hrest2 (by decide)
      simpa using h
    have hrest1 : tokAux []
        (' ' :: 'O' :: 'R' :: ' ' :: ((joinSep " OR " ((m2 :: ms').map renderPair)).data ++ rest))
        = .ok (Tok.TOR :: pairTok m2 :: (orToksTail ms' ++ ts)) := by
      rw [tokAux_space]; exact hword
    have hmain := tokAux_pair_then m
      (' ' :: 'O' :: 'R' :: ' ' :: ((joinSep " OR " ((m2 :: ms').map renderPair)).data ++ rest))
      (Tok.TOR :: pairTok m2 :: (orToksTail ms' ++ ts)) hm.1 hm.2 (by simp [headDelim]) hrest1
    have hjoin : (joinSep " OR " ((m :: m2 :: ms').map renderPair)).data
        = (renderPair m).data
          ++ (' ' :: 'O' :: 'R' :: ' ' :: (joinSep " OR " ((m2 :: ms').map renderPair)).data) := by
      show (joinSep " OR " (renderPair m :: renderPair m2 :: ms'.map renderPair)).data = _
      have hsp : (" OR " : String).data = [' ', 'O', 'R', ' '] := rfl
      simp [joinSep, String.data_append, hsp]
    rw [hjoin, List.append_assoc]
    simpa [orToksTail, List.cons_append] using hmain

theorem groupWF_pairs (l : List FacetPair) (hg : groupWF (.inr l) = true) :
    ∀ p ∈ l, plainWord p.1 = true ∧ plainWord p.2 = true := by
  simp only [groupWF, Bool.and_eq_true, List.all_eq_true] at hg
  intro p hp
  exact hg.2 p hp

theorem tokAux_group (g : FacetGroup) (rest : List Char) (ts : List Tok)
    (hg : groupWF g = true) (hr : headDelim rest = true) (hrest : tokAux [] rest = .ok ts) :
    tokAux [] ((renderEntryText (renderGroup g)).data ++ rest) = .ok (groupToks g ++ ts) := by
  cases g with
  | inl p =>
    simp only [groupWF, Bool.and_eq_true] at hg
    simp only [renderGroup, renderEntryText, groupToks, List.cons_append, List.nil_append]
    exact tokAux_pair_then p rest ts hg.1 hg.2 hr hrest
  | inr l =>
    cases l with
    | nil => simp [groupWF] at hg
    | cons m ms =>
      have hpairs := groupWF_pairs (m :: ms) hg
      have hm := hpairs m (by simp)
      have hms : ∀ p ∈ ms, plainWord p.1 = true ∧ plainWord p.2 = true :=
        fun p hp => hpairs p (by simp [hp])
      have hrp : tokAux [] (')' :: rest) = .ok (Tok.RP :: ts) := by
        rw [tokAux_rp, hrest]; rfl
      have hinner := tokAux_orGroup ms m (')' :: rest) (Tok.RP :: ts) hm hms
        (by simp [headDelim]) hrp
      have hdata : (renderEntryText (renderGroup (.inr (m :: ms)))).data
          = '(' :: ((joinSep " OR " ((m :: ms).map renderPair)).data ++ [')']) := by
        show ("(" ++ joinSep " OR " ((m :: ms).map renderPair) ++ ")").data = _
        simp [String.data_append]
      rw [hdata]
      simp only [List.cons_append, List.append_assoc, List.singleton_append, List.nil_append]
      rw [tokAux_lp, hinner]
      simp [groupToks, Except.map, List.append_assoc]

theorem tokAux_chain (gs : List FacetGroup) (g : FacetGroup) (rest : List Char) (ts : List Tok)
    (hg : groupWF g = true) (hgs : ∀ g' ∈ gs, groupWF g' = true)
    (hr : headDelim rest = true) (hrest : tokAux [] rest = .ok ts) :
    tokAux [] ((joinSep " AND " ((g :: gs).map fun g' => renderEntryText (renderGroup g'))).data
        ++ rest)
      = .ok ((groupToks g ++ andToksTail gs) ++ ts) := by
  induction gs generalizing g with
  | nil =>
    simp only [List.map_cons, List.map_nil, joinSep, andToksTail, List.append_nil]
    exact tokAux_group g rest ts hg hr hrest
  | cons g2 gs' ih =>
    have hg2 := hgs g2 (by simp)
    have hgs' : ∀ g' ∈ gs', groupWF g' = true := fun g' hgp => hgs g' (by simp [hgp])
    have hinner : tokAux []
        ((joinSep " AND " ((g2 :: gs').map fun g' => renderEntryText (renderGroup g'))).data
          ++ rest)
        = .ok ((groupToks g2 ++ andToksTail gs') ++ ts) := ih g2 hg2 hgs'
    have hrest2 : tokAux []
        (' ' :: ((joinSep " AND "
            ((g2 :: gs').map fun g' => renderEntryText (renderGroup g'))).data ++ rest))
        = .ok ((groupToks g2 ++ andToksTail gs') ++ ts) := by
      rw [tokAux_space]; exact hinner
    have hword : tokAux []
        ('A' :: 'N' :: 'D' :: ' ' :: ((joinSep " AND "
            ((g2 :: gs').map fun g' => renderEntryText (renderGroup g'))).data ++ rest))
        = .ok (Tok.TAND :: ((groupToks g2 ++ andToksTail gs') ++ ts)) := by
      have h := tokAux_word_then ['A', 'N', 'D']
        (' ' :: ((joinSep " AND "
            ((g2 :: gs').map fun g' => renderEntryText (renderGroup g'))).data ++ rest))
        ((groupToks g2 ++ andToksTail gs') ++ ts) Tok.TAND
        (by simp) (by decide) (by simp [headDelim]) hrest2 (by decide)
      simpa using h
    have hrest1 : tokAux []
        (' ' :: 'A' :: 'N' :: 'D' :: ' ' :: ((joinSep " AND "
            ((g2 :: gs').map fun g' => renderEntryText (renderGroup g'))).data ++ rest))
        = .ok (Tok.TAND :: ((groupToks g2 ++ andToksTail gs') ++ ts)) := by
      rw [tokAux_space]; exact hword
    have hmain := tokAux_group g
      (' ' :: 'A' :: 'N' :: 'D' :: ' ' :: ((joinSep " AND "
          ((g2 :: gs').map fun g' => renderEntryText (renderGroup g'))).data ++ rest))
      (Tok.TAND :: ((groupToks g2 ++ andToksTail gs') ++ ts)) hg (by simp [headDelim]) hrest1
    have hjoin : (joinSep " AND " ((g :: g2 :: gs').map fun g' => renderEntryText (renderGroup g'))).data
        = (renderEntryText (renderGroup g)).data
          ++ (' ' :: 'A' :: 'N' :: 'D' :: ' ' :: (joinSep " AND "
              ((g2 :: gs').map fun g' => renderEntryText (renderGroup g'))).data) := by
      show (joinSep " AND " (renderEntryText (renderGroup g)
          :: renderEntryText (renderGroup g2) :: gs'.map fun g' => renderEntryText (renderGroup g'))).data = _
      have hsp : (" AND " : String).data = [' ', 'A', 'N', 'D', ' '] := rfl
      simp [joinSep, String.data_append, hsp]
    rw [hjoin, List.append_assoc]
    simpa [andToksTail, List.cons_append, List.append_assoc] using hmain

theorem tokenize_facets (gs : List FacetGroup) (hne : gs ≠ [])
    (hwf : ∀ g ∈ gs, groupWF g = true) :
    tokenize (joinFacetFilters (gs.map renderGroup)) = .ok (facetToks gs) := by
  cases gs with
  | nil => exact absurd rfl hne
  | cons g gs' =>
    have hg := hwf g (by simp)
    have hgs' : ∀ g' ∈ gs', groupWF g' = true := fun g' hgp => hwf g' (by simp [hgp])
    have hchain := tokAux_chain gs' g [] [] hg hgs' (by simp [headDelim]) rfl
    unfold tokenize joinFacetFilters
    rw [List.map_map]
    have hfun : (renderEntryText ∘ renderGroup) = fun g' => renderEntryText (renderGroup g') := rfl
    rw [hfun]
    rw [← List.append_nil (joinSep " AND "
        ((g :: gs').map fun g' => renderEntryText (renderGroup g'))).data]
    rw [hchain]
    simp [facetToks]

theorem parseAtomL_TM (k v : String) (rest : List Tok) :
    parseAtomL (.TM k v :: rest) = .ok (.MATCH k v, rest) := by
  simp [parseAtomL, parseAtom, Except.map]

theorem parseAtomL_LP (rest rest3 : List Tok) (r : Rule)
    (h : parseOrL rest = .ok (r, .RP :: rest3)) :
    parseAtomL (.LP :: rest) = .ok (r, rest3) := by
  simp only [parseOrL] at h
  cases hp : parseOr rest with
  | error e => rw [hp] at h; simp [Except.map] at h
  | ok pr =>
    obtain ⟨r', rest2, hlen⟩ := pr
    rw [hp] at h
    simp only [Except.map] at h
    injection h with h
    rw [Prod.mk.injEq] at h
    obtain ⟨rfl, hrest⟩ := h
    subst hrest
    simp [parseAtomL, parseAtom, hp, Except.map]

theorem parseNotL_eq_atom (toks : List Tok) (h : toks.head? ≠ some .TNOT) :
    parseNotL toks = parseAtomL toks := by
  cases toks with
  | nil => simp [parseNotL, parseAtomL, parseNot]
  | cons t rest =>
    cases t with
    | TNOT => exact absurd rfl h
    | LP => simp [parseNotL, parseAtomL, parseNot]
    | RP => simp [parseNotL, parseAtomL, parseNot]
    | TAND => simp [parseNotL, parseAtomL, parseNot]
    | TOR => simp [parseNotL, parseAtomL, parseNot]
    | TM k v => simp [parseNotL, parseAtomL, parseNot]

theorem parseNotL_TM (k v : String) (rest : List Tok) :
    parseNotL (.TM k v :: rest) = .ok (.MATCH k v, rest) := by
  rw [parseNotL_eq_atom _ (by simp)]
  exact parseAtomL_TM k v rest

theorem parseAndL_eq (toks : List Tok) (l : Rule) (rest1 : List Tok)
    (h : parseNotL toks = .ok (l, rest1)) :
    parseAndL toks = parseAndRestL l rest1 := by
  simp only [parseNotL] at h
  cases hp : parseNot toks with
  | error e => rw [hp] at h; simp [Except.map] at h
  | ok pr =>
    obtain ⟨l', rest1', hlen⟩ := pr
    rw [hp] at h
    simp only [Except.map] at h
    injection h with h
    rw [Prod.mk.injEq] at h
    obtain ⟨rfl, hrest⟩ := h
    subst hrest
    cases hq : parseAndRest l' rest1' with
    | error e => simp [parseAndL, parseAnd, parseAndRestL, hp, hq, Except.map]
    | ok qr =>
      obtain ⟨r2, rest2, hlen2⟩ := qr
      simp [parseAndL, parseAnd, parseAndRestL, hp, hq, Except.map]

theorem parseAndRestL_stop (acc : Rule) (toks : List Tok) (h : toks.head? ≠ some .TAND) :
    parseAndRestL acc toks = .ok (acc, toks) := by
  cases toks with
  | nil => simp [parseAndRestL, parseAndRest, Except.map]
  | cons t rest =>
    cases t with
    | TAND => exact absurd rfl h
    | LP => simp [parseAndRestL, parseAndRest, Except.map]
    | RP => simp [parseAndRestL, parseAndRest, Except.map]
    | TNOT => simp [parseAndRestL, parseAndRest, Except.map]
    | TOR => simp [parseAndRestL, parseAndRest, Except.map]
    | TM k v => simp [parseAndRestL, parseAndRest, Except.map]

theorem parseAndRestL_step (acc l : Rule) (rest rest2 : List Tok)
    (h : parseNotL rest = .ok (l, rest2)) :
    parseAndRestL acc (.TAND :: rest) = parseAndRestL (.AND acc l) rest2 := by
  simp only [parseNotL] at h
  cases hp : parseNot rest with
  | error e => rw [hp] at h; simp [Except.map] at h
  | ok pr =>
    obtain ⟨l', rest2', hlen⟩ := pr
    rw [hp] at h
    simp only [Except.map] at h
    injection h with h
    rw [Prod.mk.injEq] at h
    obtain ⟨rfl, hrest⟩ := h
    subst hrest
    cases hq : parseAndRest (.AND acc l') rest2' with
    | error e => simp [parseAndRestL, parseAndRest, hp, hq, Except.map]
    | ok qr =>
      obtain ⟨r2, rest3, hlen3⟩ := qr
      simp [parseAndRestL, parseAndRest, hp, hq, Except.map]

theorem parseOrL_eq (toks : List Tok) (l : Rule) (rest1 : List Tok)
    (h : parseAndL toks = .ok (l, rest1)) :
    parseOrL toks = parseOrRestL l rest1 := by
  simp only [parseAndL] at h
  cases hp : parseAnd toks with
  | error e => rw [hp] at h; simp [Except.map] at h
  | ok pr =>
    obtain ⟨l', rest1', hlen⟩ := pr
    rw [hp] at h
    simp only [Except.map] at h
    injection h with h
    rw [Prod.mk.injEq] at h
    obtain ⟨rfl, hrest⟩ := h
    subst hrest
    cases hq : parseOrRest l' rest1' with
    | error e => simp [parseOrL, parseOr, parseOrRestL, hp, hq, Except.map]
    | ok qr =>
      obtain ⟨r2, rest2, hlen2⟩ := qr
      simp [parseOrL, parseOr, parseOrRestL, hp, hq, Except.map]

theorem parseOrRestL_stop (acc : Rule) (toks : List Tok) (h : toks.head? ≠ some .TOR) :
    parseOrRestL acc toks = .ok (acc, toks) := by
  cases toks with
  | nil => simp [parseOrRestL, parseOrRest, Except.map]
  | cons t rest =>
    cases t with
    | TOR => exact absurd rfl h
    | LP => simp [parseOrRestL, parseOrRest, Except.map]
    | RP => simp [parseOrRestL, parseOrRest, Except.map]
    | TNOT => simp [parseOrRestL, parseOrRest, Except.map]
    | TAND => simp [parseOrRestL, parseOrRest, Except.map]
    | TM k v => simp [parseOrRestL, parseOrRest, Except.map]

theorem parseOrRestL_step (acc l : Rule) (rest rest2 : List Tok)
    (h : parseAndL rest = .ok (l, rest2)) :
    parseOrRestL acc (.TOR :: rest) = parseOrRestL (.OR acc l) rest2 := by
  simp only [parseAndL] at h
  cases hp : parseAnd rest with
  | error e => rw [hp] at h; simp [Except.map] at h
  | ok pr =>
    obtain ⟨l', rest2', hlen⟩ := pr
    rw [hp] at h
    simp only [Except.map] at h
    injection h with h
    rw [Prod.mk.injEq] at h
    obtain ⟨rfl, hrest⟩ := h
    subst hrest
    cases hq : parseOrRest (.OR acc l') rest2' with
    | error e => simp [parseOrRestL, parseOrRest, hp, hq, Except.map]
    | ok qr =>
      obtain ⟨r2, rest3, hlen3⟩ := qr
      simp [parseOrRestL, parseOrRest, hp, hq, Except.map]

theorem parseToks_of_orL (toks : List Tok) (r : Rule) (h : parseOrL toks = .ok (r, [])) :
    parseToks toks = .ok r := by
  simp only [parseOrL] at h
  cases hp : parseOr toks with
  | error e => rw [hp] at h; simp [Except.map] at h
  | ok pr =>
    obtain ⟨r', rest, hlen⟩ := pr
    rw [hp] at h
    simp only [Except.map] at h
    injection h with h
    rw [Prod.mk.injEq] at h
    obtain ⟨rfl, hrest⟩ := h
    subst hrest
    simp [parseToks, hp]

theorem orToksTail_head_ne_TAND (ms : List FacetPair) (rest : List Tok)
    (h : rest.head? ≠ some .TAND) :
    (orToksTail ms ++ rest).head? ≠ some Tok.TAND := by
  cases ms with
  | nil => simpa [orToksTail] using h
  | cons m ms' => simp [orToksTail]

theorem parseOrRestL_chain (ms : List FacetPair) (acc : Rule) (rest : List Tok)
    (h1 : rest.head? ≠ some .TOR) (h2 : rest.head? ≠ some .TAND) :
    parseOrRestL acc (orToksTail ms ++ rest) = .ok (orChainRule acc ms, rest) := by
  induction ms generalizing acc with
  | nil => simpa [orToksTail, orChainRule] using parseOrRestL_stop acc rest h1
  | cons m ms' ih =>
    have hno : (orToksTail ms' ++ rest).head? ≠ some Tok.TAND :=
      orToksTail_head_ne_TAND ms' rest h2
    have hnot := parseNotL_TM m.1 m.2 (orToksTail ms' ++ rest)
    have hand : parseAndL (pairTok m :: (orToksTail ms' ++ rest))
        = .ok (pairRule m, orToksTail ms' ++ rest) := by
      simp only [pairTok, pairRule]
      rw [parseAndL_eq _ _ _ hnot]
      exact parseAndRestL_stop _ _ hno
    calc parseOrRestL acc (orToksTail (m :: ms') ++ rest)
        = parseOrRestL acc (.TOR :: (pairTok m :: (orToksTail ms' ++ rest))) := by
          simp [orToksTail]
      _ = parseOrRestL (.OR acc (pairRule m)) (orToksTail ms' ++ rest) :=
          parseOrRestL_step acc (pairRule m) _ _ hand
      _ = .ok (orChainRule (.OR acc (pairRule m)) ms', rest) := ih _
      _ = .ok (orChainRule acc (m :: ms'), rest) := rfl

theorem parseNotL_group (g : FacetGroup) (rest : List Tok) (hg : groupWF g = true) :
    parseNotL (groupToks g ++ rest) = .ok (groupRule g, rest) := by
  cases g with
  | inl p =>
    simpa [groupToks, groupRule] using parseNotL_TM p.1 p.2 rest
  | inr l =>
    cases l with
    | nil => simp [groupWF] at hg
    | cons m ms =>
      have hAndHead : (orToksTail ms ++ Tok.RP :: rest).head? ≠ some Tok.TAND :=
        orToksTail_head_ne_TAND ms _ (by simp)
      have hnot := parseNotL_TM m.1 m.2 (orToksTail ms ++ Tok.RP :: rest)
      have hand : parseAndL (pairTok m :: (orToksTail ms ++ Tok.RP :: rest))
          = .ok (pairRule m, orToksTail ms ++ Tok.RP :: rest) := by
        simp only [pairTok, pairRule]
        rw [parseAndL_eq _ _ _ hnot]
        exact parseAndRestL_stop _ _ hAndHead
      have hor : parseOrL (pairTok m :: (orToksTail ms ++ Tok.RP :: rest))
          = .ok (orChainRule (pairRule m) ms, Tok.RP :: rest) := by
        rw [parseOrL_eq _ _ _ hand]
        exact parseOrRestL_chain ms (pairRule m) (Tok.RP :: rest) (by simp) (by simp)
      have hatom := parseAtomL_LP _ rest (orChainRule (pairRule m) ms) hor
      have hne : (Tok.LP :: (pairTok m :: (orToksTail ms ++ Tok.RP :: rest))).head?
          ≠ some Tok.TNOT := by simp
      rw [show groupToks (.inr (m :: ms)) ++ rest
          = Tok.LP :: (pairTok m :: (orToksTail ms ++ Tok.RP :: rest)) by
        simp [groupToks, List.append_assoc]]
      rw [parseNotL_eq_atom _ hne]
      simpa [groupRule] using hatom

theorem parseAndRestL_chain (gs : List FacetGroup) (acc : Rule) (rest : List Tok)
    (hgs : ∀ g ∈ gs, groupWF g = true) (h2 : rest.head? ≠ some .TAND) :
    parseAndRestL acc (andToksTail gs ++ rest) = .ok (andChainRule acc gs, rest) := by
  induction gs generalizing acc with
  | nil => simpa [andToksTail, andChainRule] using parseAndRestL_stop acc rest h2
  | cons g gs' ih =>
    have hg := hgs g (by simp)
    have hgs' : ∀ g' ∈ gs', groupWF g' = true := fun g' hgp => hgs g' (by simp [hgp])
    have hnot : parseNotL (groupToks g ++ (andToksTail gs' ++ rest))
        = .ok (groupRule g, andToksTail gs' ++ rest) :=
      parseNotL_group g (andToksTail gs' ++ rest) hg
    calc parseAndRestL acc (andToksTail (g :: gs') ++ rest)
        = parseAndRestL acc (.TAND :: (groupToks g ++ (andToksTail gs' ++ rest))) := by
          simp [andToksTail, List.append_assoc]
      _ = parseAndRestL (.AND acc (groupRule g)) (andToksTail gs' ++ rest) :=
          parseAndRestL_step acc (groupRule g) _ _ hnot
      _ = .ok (andChainRule (.AND acc (groupRule g)) gs', rest) := ih _ hgs'
      _ = .ok (andChainRule acc (g :: gs'), rest) := rfl

theorem parseToks_facets (gs : List FacetGroup) (hne : gs ≠ [])
    (hwf : ∀ g ∈ gs, groupWF g = true) :
    parseToks (facetToks gs) = .ok (facetRule gs) := by
  cases gs with
  | nil => exact absurd rfl hne
  | cons g gs' =>
    have hg := hwf g (by simp)
    have hgs' : ∀ g' ∈ gs', groupWF g' = true := fun g' hgp => hwf g' (by simp [hgp])
    have hnot : parseNotL (groupToks g ++ andToksTail gs')
        = .ok (groupRule g, andToksTail gs') := parseNotL_group g (andToksTail gs') hg
    have hand : parseAndL (groupToks g ++ andToksTail gs')
        = .ok (andChainRule (groupRule g) gs', []) := by
      rw [parseAndL_eq _ _ _ hnot]
      have := parseAndRestL_chain gs' (groupRule g) [] hgs' (by simp)
      simpa using this
    have hor : parseOrL (groupToks g ++ andToksTail gs')
        = .ok (andChainRule (groupRule g) gs', []) := by
      rw [parseOrL_eq _ _ _ hand]
      exact parseOrRestL_stop _ _ (by simp)
    have := parseToks_of_orL _ _ hor
    simpa [facetToks, facetRule] using this

theorem parseFilter_facets (gs : List FacetGroup) (hne : gs ≠ [])
    (hwf : ∀ g ∈ gs, groupWF g = true) :
    parseFilter (joinFacetFilters (gs.map renderGroup)) = .ok (facetRule gs) := by
  unfold parseFilter
  rw [tokenize_facets gs hne hwf]
  exact parseToks_facets gs hne hwf

theorem build_orChain (ms : List FacetPair) (acc : Rule) (eacc : SearchExpr)
    (h : buildSearchExpression acc = .ok eacc) :
    buildSearchExpression (orChainRule acc ms) = .ok (orChainExpr eacc ms) := by
  induction ms generalizing acc eacc with
  | nil => simpa [orChainRule, orChainExpr] using h
  | cons m ms' ih =>
    have hstep : buildSearchExpression (.OR acc (pairRule m))
        = .ok (.OR eacc (pairExpr m)) := by
      simp [buildSearchExpression, h, pairRule, pairExpr]
    have h2 := ih (.OR acc (pairRule m)) (.OR eacc (pairExpr m)) hstep
    simpa [orChainRule, orChainExpr] using h2

theorem build_group (g : FacetGroup) :
    buildSearchExpression (groupRule g) = .ok (groupExpr g) := by
  cases g with
  | inl p => rfl
  | inr l =>
    cases l with
    | nil => rfl
    | cons m ms => exact build_orChain ms (pairRule m) (pairExpr m) rfl

theorem build_andChain (gs : List FacetGroup) (acc : Rule) (eacc : SearchExpr)
    (h : buildSearchExpression acc = .ok eacc) :
    buildSearchExpression (andChainRule acc gs) = .ok (andChainExpr eacc gs) := by
  induction gs generalizing acc eacc with
  | nil => simpa [andChainRule, andChainExpr] using h
  | cons g gs' ih =>
    have hstep : buildSearchExpression (.AND acc (groupRule g))
        = .ok (.AND eacc (groupExpr g)) := by
      simp [buildSearchExpression, h, build_group g]
    have h2 := ih _ _ hstep
    simpa [andChainRule, andChainExpr] using h2

theorem build_facets (gs : List FacetGroup) :
    buildSearchExpression (facetRule gs) = .ok (facetExpr gs) := by
  cases gs with
  | nil => rfl
  | cons g gs' => exact build_andChain gs' (groupRule g) (groupExpr g) (build_group g)

theorem parseAlgoliaSQL_facets (gs : List FacetGroup) (hne : gs ≠ [])
    (hwf : ∀ g ∈ gs, groupWF g = true) :
    parseAlgoliaSQL (joinFacetFilters (gs.map renderGroup)) = .ok (facetExpr gs) := by
  simp [parseAlgoliaSQL, parseFilter_facets gs hne hwf, build_facets gs]

/-- **C4** Normalising any facet-filter list whose members are well-formed
`key:value` strings (plain words around one colon, OR-groups nonempty) and
feeding it through the filter pipeline yields exactly the claimed shape:
each bare member becomes a single `Match` leaf, each nested list becomes a
left-associative `Or`-chain over its members, and the top-level entries are
combined into a left-associative `And`-chain — both at the AST level and
after compilation into the index algebra. -/
theorem facetFilters_normalization (gs : List FacetGroup) (hne : gs ≠ [])
    (hwf : ∀ g ∈ gs, groupWF g = true) :
    parseFilter (joinFacetFilters (gs.map renderGroup)) = .ok (facetRule gs)
    ∧ parseAlgoliaSQL (joinFacetFilters (gs.map renderGroup)) = .ok (facetExpr gs) :=
  ⟨parseFilter_facets gs hne hwf, parseAlgoliaSQL_facets gs hne hwf⟩

/-- Witness for C4: the claim's own example,
`[["a:1","a:2"], "b:3"]` compiling to `AND(OR(a:1, a:2), b:3)`. -/
theorem facetFilters_normalization_witness :
    parseAlgoliaSQL (joinFacetFilters [.inr ["a:1", "a:2"], .inl "b:3"])
      = .ok (.AND (.OR (.leaf "a:1") (.leaf "a:2")) (.leaf "b:3")) := by
  have hwf : ∀ g ∈ ([.inr [("a", "1"), ("a", "2")], .inl ("b", "3")] : List FacetGroup),
      groupWF g = true := by
    intro g hg
    simp only [List.mem_cons, List.not_mem_nil, or_false] at hg
    rcases hg with rfl | rfl
    · decide
    · decide
  have h := (facetFilters_normalization
    [.inr [("a", "1"), ("a", "2")], .inl ("b", "3")] (by decide) hwf).2
  exact h

/-- **C10** The facet-filter normaliser is textual concatenation re-parsed:
nested lists are joined with " OR " inside parentheses and top-level entries
with " AND " — with no quoting or escaping whatever the member strings
contain — and the resulting string goes through `parseAlgoliaSQL`, the same
parser the `filters` field uses; consequently a member containing grammar
tokens is re-tokenized (e.g. the single facet string "a:1 OR b:2" compiles
to `OR(a:1, b:2)`, not to one opaque match leaf). -/
theorem facetFilters_textualJoin :
    (∀ s1 s2 s3 : String,
      joinFacetFilters [.inr [s1, s2], .inl s3]
        = "(" ++ s1 ++ " OR " ++ s2 ++ ")" ++ " AND " ++ s3)
    ∧ (∀ ff : List FacetEntry,
        facetClause (some ff) = (parseAlgoliaSQL (joinFacetFilters ff)).map fun e => [e])
    ∧ (∀ f : String, f ≠ "" →
        filterClause (some f) = (parseAlgoliaSQL f).map fun e => [e])
    ∧ joinFacetFilters [.inl "a:1 OR b:2"] = "a:1 OR b:2"
    ∧ parseAlgoliaSQL (joinFacetFilters [.inl "a:1 OR b:2"])
      = .ok (.OR (.leaf "a:1") (.leaf "b:2"))
    ∧ parseAlgoliaSQL (joinFacetFilters [.inl "a:1 OR b:2"]) ≠ .ok (.leaf "a:1 OR b:2") := by
  have ht : tokenize "a:1 OR b:2" = .ok [.TM "a" "1", .TOR, .TM "b" "2"] := by decide
  have h5 : parseAlgoliaSQL (joinFacetFilters [.inl "a:1 OR b:2"])
      = .ok (.OR (.leaf "a:1") (.leaf "b:2")) := by
    simp [parseAlgoliaSQL, parseFilter, joinFacetFilters, renderEntryText, joinSep, ht,
      parseToks, parseOr, parseAnd, parseNot, parseAtom, parseOrRest, parseAndRest,
      buildSearchExpression]
  refine ⟨?_, fun ff => rfl, ?_, rfl, h5, ?_⟩
  · intro s1 s2 s3
    simp [joinFacetFilters, renderEntryText, joinSep, String.append_assoc]
  · intro f hf
    simp [filterClause, hf]
  · rw [h5]
    decide

/-- Witness for C10 at concrete strings, one of which contains the grammar
token ` AND ` and is still concatenated verbatim. -/
theorem facetFilters_textualJoin_witness :
    joinFacetFilters [.inr ["k:v AND q:w", "z:1"], .inl "s:2"]
      = "(" ++ "k:v AND q:w" ++ " OR " ++ "z:1" ++ ")" ++ " AND " ++ "s:2"
    ∧ filterClause (some "x:1") = (parseAlgoliaSQL "x:1").map fun e => [e] :=
  ⟨facetFilters_textualJoin.1 "k:v AND q:w" "z:1" "s:2",
    facetFilters_textualJoin.2.2.1 "x:1" (by decide)⟩

end Algolite
